import Mathlib

/-!
# Verification of the inline auto-completion engine

Shallow embedding of the core algorithms of the plugin sources:

* the block-context scanner (`src/editor_helpers.ts`, `getLatexBlockType`),
* the prefix dictionary matcher (`provider/dictionary_provider.ts`,
  `DictionaryProvider.getSuggestions`) and the two dictionary-backed tables
  (`provider/scanner_provider.ts` `addWord`, `provider/word_list_provider.ts`
  `loadFromFiles`),
* the suggestion provider pipeline (`popup.ts`, `SuggestionPopup.getSuggestions`),
* the snippet placeholder manager (`snippet_manager.ts`, `handleSnippet`) and the
  marker state field (`marker_state_field.ts`, `markerStateField.update`).

Strings are modelled as `List Char`, documents as lists of lines
(`List (List Char)`).  Positions are `(line, ch)` pairs of naturals, mirroring
the editor's `EditorPosition`.
-/

namespace Completr

/-! ## Block context scanner (`editor_helpers.ts`) -/

/-- The `BlockType` constants of `editor_helpers.ts` (`DOLLAR_SINGLE`,
`DOLLAR_MULTI`, `CODE_SINGLE`, `CODE_MULTI`, `NONE`). -/
inductive BlockType where
  | DOLLAR_SINGLE
  | DOLLAR_MULTI
  | CODE_SINGLE
  | CODE_MULTI
  | NONE
deriving DecidableEq, Repr

namespace BlockType

/-- The delimiter text `c` of each block type. -/
def c : BlockType → List Char
  | DOLLAR_SINGLE => ['$']
  | DOLLAR_MULTI => ['$', '$']
  | CODE_SINGLE => ['`']
  | CODE_MULTI => ['`', '`', '`']
  | NONE => []

/-- The `otherType` back-reference: single ↔ multi of the same family. -/
def otherType : BlockType → Option BlockType
  | DOLLAR_SINGLE => some DOLLAR_MULTI
  | DOLLAR_MULTI => some DOLLAR_SINGLE
  | CODE_SINGLE => some CODE_MULTI
  | CODE_MULTI => some CODE_SINGLE
  | NONE => none

/-- `isDollarBlock` getter. -/
def isDollarBlock (b : BlockType) : Bool :=
  b = DOLLAR_SINGLE || b = DOLLAR_MULTI

/-- `isCodeBlock` getter: not a dollar block and not `NONE`. -/
def isCodeBlock (b : BlockType) : Bool :=
  !b.isDollarBlock && b != NONE

end BlockType

/-- An editor position: `{line, ch}`. -/
structure EdPos where
  line : Nat
  ch : Nat
deriving DecidableEq, Repr

/-- A document is a list of lines; `getLine` out of range gives the empty line. -/
abbrev Doc := List (List Char)

/-- `editor.getLine` on the line-list document model. -/
def getLine (doc : Doc) (i : Nat) : List Char := doc.getD i []

/-- `substringMatches(str, target, from)` from `editor_helpers.ts`: the bounds
check `end > str.length` followed by a character-by-character comparison,
i.e. `target` occurs in `str` at offset `frm`. -/
def substringMatches (str target : List Char) (frm : Nat) : Bool :=
  decide (frm + target.length ≤ str.length) && target.isPrefixOf (str.drop frm)

/-- One stack entry of `getLatexBlockType`: a recognized delimiter token
together with the line it was found on (`{ type: bt, line: lineIndex }`). -/
structure Token where
  type : BlockType
  line : Nat
deriving DecidableEq, Repr

/-- The inner character loop of `getLatexBlockType`, expressed on the
reversed already-scanned prefix.  The JS loop walks indices
`j = n-1, n-2, …, 0` of the line right-to-left; reading the first `n`
characters in that right-to-left order is exactly reading
`(line.take n).reverse` left-to-right, with the character at `j - 1`
(consulted by the escape check and the wide-variant check
`substringMatches(line, wide, j - multiLen + 1)`) becoming the next
element of the reversed list.  Concretely, at each recognized delimiter:

* a `$` or `` ` `` whose left neighbour is `\` is skipped (escaped);
* a `$` whose left neighbour is `$` is the trailing character of `$$`:
  both are consumed as one `DOLLAR_MULTI` token (the loop does
  `j -= multiLen - 1` and then `j--`);
* a `` ` `` whose two left neighbours are `` ` `` `` ` `` is consumed as one
  `CODE_MULTI` token (three characters);
* otherwise the single-width token is pushed.

Tokens are returned in push order (`stack[0]` first). -/
def scanRevTokens : List Char → List BlockType
  | [] => []
  | '$' :: '\\' :: rest => scanRevTokens ('\\' :: rest)
  | '$' :: '$' :: rest => BlockType.DOLLAR_MULTI :: scanRevTokens rest
  | '$' :: rest => BlockType.DOLLAR_SINGLE :: scanRevTokens rest
  | '`' :: '\\' :: rest => scanRevTokens ('\\' :: rest)
  | '`' :: '`' :: '`' :: rest => BlockType.CODE_MULTI :: scanRevTokens rest
  | '`' :: rest => BlockType.CODE_SINGLE :: scanRevTokens rest
  | _ :: rest => scanRevTokens rest

/-- The inner character loop of `getLatexBlockType` on one line: the JS loop
starts at index `n - 1` (`pos.ch - 1` on the cursor's line, `line.length - 1`
elsewhere) and scans leftward, i.e. it reads the reversed length-`n` prefix.
`scanLineTokensIdx_eq_scanRev` validates this against the literal
index-based transcription of the loop. -/
def scanLineTokens (line : List Char) (n : Nat) : List BlockType :=
  scanRevTokens (line.take n).reverse

/-- Literal index-based transcription of the inner character loop of
`getLatexBlockType`: `scanLineTokensIdx line n` processes indices
`j = n-1, n-2, …, 0` (`n` is the number of indices still to visit).  At
each index: `line.charAt(j)` is matched against the single-width delimiter
characters; `j > 0 && line.charAt(j-1) === "\\"` skips an escaped
delimiter; the wide-variant check is
`j + 1 >= multiLen && substringMatches(line, wide, j - multiLen + 1)`
(with `multiLen` 2 for `$$` and 3 for ` ``` `), after which the loop does
`j -= multiLen - 1` followed by `j--`, i.e. it continues with
`n + 1 - multiLen` indices left.  Proved extensionally equal to
`scanLineTokens` on in-range counts by `scanLineTokensIdx_eq_scanRev`. -/
def scanLineTokensIdx (line : List Char) : Nat → List BlockType
  | 0 => []
  | n + 1 =>
    if line.getD n ' ' = '$' then
      if n > 0 ∧ line.getD (n - 1) ' ' = '\\' then scanLineTokensIdx line n
      else if n + 1 ≥ 2 ∧ substringMatches line ['$', '$'] (n + 1 - 2) then
        BlockType.DOLLAR_MULTI :: scanLineTokensIdx line (n + 1 - 2)
      else BlockType.DOLLAR_SINGLE :: scanLineTokensIdx line n
    else if line.getD n ' ' = '`' then
      if n > 0 ∧ line.getD (n - 1) ' ' = '\\' then scanLineTokensIdx line n
      else if n + 1 ≥ 3 ∧ substringMatches line ['`', '`', '`'] (n + 1 - 3) then
        BlockType.CODE_MULTI :: scanLineTokensIdx line (n + 1 - 3)
      else BlockType.CODE_SINGLE :: scanLineTokensIdx line n
    else scanLineTokensIdx line n
termination_by n => n
decreasing_by all_goals omega

/-- `getFrontMatterBounds` from `editor_helpers.ts`: `startLine` is the first
line `i < min 5 lastLine` equal to `---`; `endLine` is the first line in
`[startLine+1, min 50 lastLine]` equal to `---`; `null` when either is
missing.  `lastLine` is the index of the last line. -/
def getFrontMatterBounds (doc : Doc) : Option (Nat × Nat) := do
  let lastLine := doc.length - 1
  let startLine ← (List.range (min 5 lastLine)).find? fun i => getLine doc i = ['-', '-', '-']
  let endLine ← (List.range' (startLine + 1) (min 50 lastLine + 1 - (startLine + 1))).find?
    fun i => getLine doc i = ['-', '-', '-']
  return (startLine, endLine)

/-- The front-matter skip test of the token-collection loop:
`lineIndex >= frontMatter.startLine && lineIndex <= frontMatter.endLine`
(the `?? {-1,-1}` fallback makes the test always false when there are no
bounds). -/
def inFrontMatterWindow (fm : Option (Nat × Nat)) (lineIndex : Nat) : Bool :=
  match fm with
  | some (s, e) => decide (s ≤ lineIndex) && decide (lineIndex ≤ e)
  | none => false

/-- The token-collection phase of `getLatexBlockType`: lines are visited with
`for (lineIndex = startLine; lineIndex <= pos.line; lineIndex++)` where
`startLine = max 0 (pos.line - 5000)`, front-matter lines are skipped, and
within each line the character loop starts at `pos.ch - 1` on the cursor's
line and at `line.length - 1` elsewhere.  The stack is returned in push
order (`stack[0]` first). -/
def collectTokens (doc : Doc) (pos : EdPos) : List Token :=
  let fm := getFrontMatterBounds doc
  let startLine := pos.line - 5000
  ((List.range' startLine (pos.line + 1 - startLine)).map fun lineIndex =>
    if inFrontMatterWindow fm lineIndex then []
    else
      let line := getLine doc lineIndex
      let n := if lineIndex = pos.line then pos.ch else line.length
      (scanLineTokens line n).map fun t => Token.mk t lineIndex).flatten

/-- `stack.findIndex((x, i) => i > idx && x.type === block.type)` of the
pairing pass, returning the absolute index. -/
def findSameType (stack : List Token) (idx : Nat) (t : BlockType) : Option Nat :=
  match (stack.drop (idx + 1)).findIdx? fun x => x.type = t with
  | some r => some (idx + 1 + r)
  | none => none

/-- The pairing pass of `getLatexBlockType`, walking the stack from index
`idx` outward:

* past the end of the stack: `NONE`;
* an entry with a later entry of the same type: both are skipped
  (`idx = nextIndex + 1`);
* an unmatched code entry: `NONE` when `triggerInCodeBlocks` is false,
  otherwise its type;
* an unmatched `DOLLAR_SINGLE` opened on a line other than the cursor's:
  skipped (`idx++`);
* any other unmatched entry: its type.

The extra `fuel` argument only bounds the number of loop iterations so the
recursion is structural; every recursive call strictly increases `idx`, so
starting the loop with fuel `stack.length + 1` the fuel can never run out
before `idx` leaves the stack (see `pairStackAux_fuel_irrelevant`). -/
def pairStackAux (stack : List Token) (posLine : Nat) (triggerInCodeBlocks : Bool) :
    Nat → Nat → BlockType
  | _, 0 => BlockType.NONE
  | idx, fuel + 1 =>
    if h : idx < stack.length then
      let block := stack.get ⟨idx, h⟩
      match findSameType stack idx block.type with
      | none =>
        if !triggerInCodeBlocks && block.type.isCodeBlock then BlockType.NONE
        else if block.type.isCodeBlock then block.type
        else if block.type = BlockType.DOLLAR_SINGLE && block.line != posLine then
          pairStackAux stack posLine triggerInCodeBlocks (idx + 1) fuel
        else block.type
      | some n => pairStackAux stack posLine triggerInCodeBlocks (n + 1) fuel
    else BlockType.NONE

/-- The pairing pass entered at stack index 0 (`let idx = 0; while (true) …`). -/
def pairStack (stack : List Token) (posLine : Nat) (triggerInCodeBlocks : Bool) : BlockType :=
  pairStackAux stack posLine triggerInCodeBlocks 0 (stack.length + 1)

/-- `getLatexBlockType(editor, pos, triggerInCodeBlocks)`: collect the token
stack backward from the cursor, then run the pairing pass from index 0. -/
def getLatexBlockType (doc : Doc) (pos : EdPos) (triggerInCodeBlocks : Bool) : BlockType :=
  pairStack (collectTokens doc pos) pos.line triggerInCodeBlocks

/-! ## Prefix dictionary matcher (`provider/dictionary_provider.ts`) and the
two dictionary tables (`provider/scanner_provider.ts`,
`provider/word_list_provider.ts`) -/

/-- `WordInsertionMode` from the settings module. -/
inductive WordInsertionMode where
  | MATCH_CASE_REPLACE
  | IGNORE_CASE_REPLACE
  | APPEND
deriving DecidableEq, Repr

/-- The settings fields consulted by the embedded core (a subset of
`MyAutoCompletionSettings`; `minWordLength` is the field the word-list
loader reads). -/
structure Settings where
  minWordTriggerLength : Nat
  wordInsertionMode : WordInsertionMode
  ignoreDiacriticsWhenFiltering : Bool
  minWordLength : Nat
  enableFileScannerProvider : Bool
  enableWordListProvider : Bool
  enableLatexProvider : Bool
  enableCalloutProvider : Bool
  enableFrontMatterProvider : Bool

/-- `maybeLowerCase(str, lower)` from `editor_helpers.ts`. -/
def maybeLowerCase (str : List Char) (lower : Bool) : List Char :=
  if lower then str.map Char.toLower else str

/-- `removeDiacritics`: the source normalizes to NFD and strips the Unicode
combining-mark range `̀-ͯ`.  The NFD normalization step (an
external Unicode table) is not modelled; the model strips the combining
marks of an already-decomposed string. -/
def removeDiacritics (str : List Char) : List Char :=
  str.filter fun ch => !(decide (0x300 ≤ ch.toNat) && decide (ch.toNat ≤ 0x36f))

/-- The word tables are JS `Map`s from a first-character bucket key (a
one-character string) to a collection of words; modelled as an association
list in insertion order (`Map` preserves insertion order). -/
abbrev WordMap := List (List Char × List (List Char))

/-- `map.get(key) ?? []`: the value of the first entry with this key. -/
def mapGet : WordMap → List Char → List (List Char)
  | [], _ => []
  | e :: rest, k => if e.1 = k then e.2 else mapGet rest k

/-- `Set.add` on an insertion-ordered set modelled as a duplicate-free list:
appends the word when absent, no-op when present. -/
def setAdd (bucket : List (List Char)) (w : List Char) : List (List Char) :=
  if w ∈ bucket then bucket else bucket ++ [w]

/-- `if (!map.has(k)) map.set(k, new Set()); map.get(k).add(w)`: update the
first entry with key `k` through `setAdd`, or append a fresh bucket. -/
def mapAddToBucket : WordMap → List Char → List Char → WordMap
  | [], k, w => [(k, [w])]
  | (k', b) :: rest, k, w =>
    if k' = k then (k', setAdd b w) :: rest else (k', b) :: mapAddToBucket rest k w

/-- `ScannerSuggestionProvider.addWord(word)`: rejects empty and blacklisted
words, then adds the word to the `Set` bucketed under its first character
(`word.charAt(0)`, here the one-character string `word.take 1`). -/
def addWord (blacklist : List (List Char)) (m : WordMap) (word : List Char) : WordMap :=
  if word = [] ∨ word ∈ blacklist then m else mapAddToBucket m (word.take 1) word

/-- `String.trim` on the character-list model. -/
def trimChars (l : List Char) : List Char :=
  ((l.dropWhile Char.isWhitespace).reverse.dropWhile Char.isWhitespace).reverse

/-- `if (!map.has(k)) map.set(k, []); map.get(k).push(w)`: a plain array
`push` onto the first entry with key `k` — no duplicate check. -/
def mapPushToBucket : WordMap → List Char → List Char → WordMap
  | [], k, w => [(k, [w])]
  | (k', b) :: rest, k, w =>
    if k' = k then (k', b ++ [w]) :: rest else (k', b) :: mapPushToBucket rest k w

/-- The per-line insertion step of `WordListSuggestionProvider.loadFromFiles`:
empty lines and lines shorter than `minWordLength` are skipped, the rest are
pushed onto the bucket keyed by the line's first character, the pushed word
being `line.trim()`. -/
def wordListInsertLine (settings : Settings) (m : WordMap) (line : List Char) : WordMap :=
  if line = [] ∨ line.length < settings.minWordLength then m
  else mapPushToBucket m (line.take 1) (trimChars line)

/-- `SuggestionBlacklist.filterText`: identity when the blacklist is empty,
otherwise drop blacklisted strings. -/
def blacklistFilterText (blacklist : List (List Char)) (l : List (List Char)) :
    List (List Char) :=
  if blacklist.isEmpty then l else l.filter fun w => !blacklist.contains w

/-- The filter-and-sort pass finishing `loadFromFiles`: every bucket is
sorted ascending by length (`arr.sort((a, b) => a.length - b.length)`) and
filtered through the blacklist (`SuggestionBlacklist.filterText`). -/
def wordListFinish (blacklist : List (List Char)) (m : WordMap) : WordMap :=
  m.map fun e =>
    (e.1, blacklistFilterText blacklist (e.2.insertionSort fun a b => a.length ≤ b.length))

/-- `WordListSuggestionProvider.loadFromFiles` restricted to one already-read
file split into lines: insert every line, then filter and sort the buckets. -/
def loadWordListLines (settings : Settings) (blacklist : List (List Char))
    (lines : List (List Char)) : WordMap :=
  wordListFinish blacklist (lines.foldl (wordListInsertLine settings) [])

/-- `DictionaryProvider.getSuggestions(context, settings)` over a word table.
`enabled` stands for the provider's `isEnabled(settings)` (the scanner
provider reads `settings.enableFileScannerProvider`, the word-list provider
`settings.enableWordListProvider`); `ctxQuery` is `context.query`.  The
returned suggestions are `Suggestion.fromString` values, i.e. plain strings:

* guard: disabled, empty or too-short query → `[]`;
* the query is lower-cased unless the mode is `MATCH_CASE_REPLACE`, and
  diacritic-stripped when `ignoreDiacriticsWhenFiltering` is set;
* candidate buckets: the bucket of the folded query's first character, plus
  the upper-case bucket when folding case, plus (when ignoring diacritics)
  every bucket whose folded first character equals the query's;
* a candidate qualifies when its folded text starts with the folded query;
* in `APPEND` mode the suggestion is the literal typed query followed by the
  candidate's remainder, otherwise the candidate itself;
* results are sorted ascending by display-name length (stable sort). -/
def dictGetSuggestions (enabled : Bool) (m : WordMap) (ctxQuery : List Char)
    (settings : Settings) : List (List Char) :=
  if !enabled ∨ ctxQuery = [] ∨ ctxQuery.length < settings.minWordTriggerLength then []
  else
    let ignoreCase := settings.wordInsertionMode ≠ WordInsertionMode.MATCH_CASE_REPLACE
    let query0 := maybeLowerCase ctxQuery ignoreCase
    let query := if settings.ignoreDiacriticsWhenFiltering then removeDiacritics query0 else query0
    let firstChar := query.take 1
    let listsToCheck :=
      (if ignoreCase then [mapGet m firstChar, mapGet m (firstChar.map Char.toUpper)]
       else [mapGet m firstChar]) ++
      (if settings.ignoreDiacriticsWhenFiltering then
        m.filterMap fun e =>
          let keyFirstChar := maybeLowerCase (e.1.take 1) ignoreCase
          if removeDiacritics keyFirstChar = firstChar then some e.2 else none
       else [])
    let result := listsToCheck.flatMap fun iterable =>
      (iterable.filter fun s =>
        let mtch := maybeLowerCase s ignoreCase
        let mtch := if settings.ignoreDiacriticsWhenFiltering then removeDiacritics mtch else mtch
        query.isPrefixOf mtch).map fun s =>
        if settings.wordInsertionMode = WordInsertionMode.APPEND then
          ctxQuery ++ s.drop query.length
        else s
    result.insertionSort fun a b => a.length ≤ b.length

/-! ## Suggestion provider pipeline (`popup.ts`, `SuggestionPopup.getSuggestions`) -/

/-- A provider as seen by the pipeline loop, after the `SuggestionProvider`
interface of `types.ts`: `isEnabled?` is an *optional* method (`none` models
a provider class that does not declare it), `getSuggestions` may throw
(`Except`), and `blocksAllOtherProviders?` defaults to `false` when
absent.  `Ctx` and `Sug` abstract `SuggestionContext` and `Suggestion`. -/
structure SProvider (Ctx Sug : Type) where
  isEnabled : Option (Settings → Bool)
  getSuggestions : Ctx → Settings → Except String (List Sug)
  blocksAllOtherProviders : Bool

/-- The pipeline loop of `SuggestionPopup.getSuggestions` with the running
`allSuggestions` accumulator:

* `if (!provider.isEnabled?.(settings)) continue` — a provider without an
  `isEnabled` method yields `undefined`, which is falsy, so it is skipped;
* a thrown error is caught (`try … catch`) and the loop continues;
* a non-empty result from an exclusive provider *replaces* the accumulator
  and breaks; a non-empty result from a non-exclusive provider is appended;
* an empty result contributes nothing. -/
def pipelineLoop {Ctx Sug : Type} (settings : Settings) (ctx : Ctx) :
    List (SProvider Ctx Sug) → List Sug → List Sug
  | [], acc => acc
  | p :: rest, acc =>
    if (p.isEnabled.map fun f => f settings).getD false = false then
      pipelineLoop settings ctx rest acc
    else
      match p.getSuggestions ctx settings with
      | Except.error _ => pipelineLoop settings ctx rest acc
      | Except.ok suggestions =>
        if 0 < suggestions.length then
          if p.blocksAllOtherProviders then suggestions
          else pipelineLoop settings ctx rest (acc ++ suggestions)
        else pipelineLoop settings ctx rest acc

/-- `SuggestionPopup.getSuggestions` restricted to its provider-composition
core: run the loop over the provider list with an empty accumulator. -/
def composeSuggestions {Ctx Sug : Type} (settings : Settings) (ctx : Ctx)
    (providers : List (SProvider Ctx Sug)) : List Sug :=
  pipelineLoop settings ctx providers []

/-- The `FileScanner` pipeline entry: `ScannerSuggestionProvider` declares
`isEnabled(settings) = settings.enableFileScannerProvider` and inherits
`getSuggestions` from `DictionaryProvider` over its `wordMap`; it does not
set `blocksAllOtherProviders`. -/
def fileScannerEntry {Ctx : Type} (m : WordMap) (queryOf : Ctx → List Char) :
    SProvider Ctx (List Char) where
  isEnabled := some fun s => s.enableFileScannerProvider
  getSuggestions := fun ctx s =>
    Except.ok (dictGetSuggestions s.enableFileScannerProvider m (queryOf ctx) s)
  blocksAllOtherProviders := false

/-- The `WordList` pipeline entry: `isEnabled(settings) =
settings.enableWordListProvider`, `getSuggestions` from `DictionaryProvider`
over its `wordMap`, no `blocksAllOtherProviders`. -/
def wordListEntry {Ctx : Type} (m : WordMap) (queryOf : Ctx → List Char) :
    SProvider Ctx (List Char) where
  isEnabled := some fun s => s.enableWordListProvider
  getSuggestions := fun ctx s =>
    Except.ok (dictGetSuggestions s.enableWordListProvider m (queryOf ctx) s)
  blocksAllOtherProviders := false

/-- The `Latex` pipeline entry: `LatexSuggestionProvider` declares **no**
`isEnabled` method (it checks `settings.enableLatexProvider` inside
`getSuggestions` instead) and no `blocksAllOtherProviders`; its
`getSuggestions` body is abstracted by `g`. -/
def latexEntry {Ctx Sug : Type} (g : Ctx → Settings → Except String (List Sug)) :
    SProvider Ctx Sug where
  isEnabled := none
  getSuggestions := g
  blocksAllOtherProviders := false

/-- The `Callout` pipeline entry: `CalloutSuggestionProvider` declares **no**
`isEnabled` method and sets `blocksAllOtherProviders = true`. -/
def calloutEntry {Ctx Sug : Type} (g : Ctx → Settings → Except String (List Sug)) :
    SProvider Ctx Sug where
  isEnabled := none
  getSuggestions := g
  blocksAllOtherProviders := true

/-- The `FrontMatter` pipeline entry: `FrontMatterSuggestionProvider`
declares **no** `isEnabled` method and sets `blocksAllOtherProviders =
true`. -/
def frontMatterEntry {Ctx Sug : Type} (g : Ctx → Settings → Except String (List Sug)) :
    SProvider Ctx Sug where
  isEnabled := none
  getSuggestions := g
  blocksAllOtherProviders := true

/-! ## Snippet placeholder manager (`snippet_manager.ts`) -/

/-- Offset of the start of line `l` (`doc.line(l+1).from`): each earlier line
contributes its length plus one newline character. -/
def lineFrom (doc : Doc) (l : Nat) : Nat :=
  ((doc.take l).map fun s => s.length + 1).sum

/-- `indexFromPos(doc, pos)` from `editor_helpers.ts`:
`min (line.from + max 0 pos.ch) line.to`. -/
def indexFromPos (doc : Doc) (pos : EdPos) : Nat :=
  min (lineFrom doc pos.line + pos.ch) (lineFrom doc pos.line + (getLine doc pos.line).length)

/-- `editor.replaceRange("", pos, {…, ch: pos.ch + 1})`: delete the single
character at `pos` when it exists, otherwise leave the document unchanged
(an empty or out-of-range range deletes nothing). -/
def deleteCharAt (doc : Doc) (pos : EdPos) : Doc :=
  if pos.line < doc.length ∧ pos.ch < (getLine doc pos.line).length then
    doc.set pos.line ((getLine doc pos.line).take pos.ch ++ (getLine doc pos.line).drop (pos.ch + 1))
  else doc

/-- Reprojection of a live marker range through the deletion of the single
character at offset `d`.  Modelled from the spec: the marking subsystem is
an external collaborator («markers' positions are continuously reprojected
as the surrounding document is edited»); a deletion left of the range
shifts it, a deletion right of it leaves it alone, and a range whose
marked text is deleted is dropped («treated as placeholder gone»). -/
def mapMarkerThroughDelete (d : Nat) (r : Nat × Nat) : Option (Nat × Nat) :=
  let f := if d < r.1 then r.1 - 1 else r.1
  let t := if d < r.2 then r.2 - 1 else r.2
  if f < t then some (f, t) else none

/-- The snippet-manager state the claims are about: the document and the set
of live marker ranges (the decoration set of `markerStateField`; the
`placeholders` queue holds back-references resolved through this set). -/
structure SnipState where
  doc : Doc
  markers : List (Nat × Nat)
deriving DecidableEq, Repr

/-- The `~` branch of `SnippetManager.handleSnippet`: the sentinel character
is deleted from the document (`editor.replaceRange("", pos, pos+1)`), and
the live markers are reprojected through that deletion. -/
def tildeStep (pos : EdPos) (st : SnipState) : SnipState :=
  if pos.line < st.doc.length ∧ pos.ch < (getLine st.doc pos.line).length then
    { doc := deleteCharAt st.doc pos
      markers := st.markers.filterMap (mapMarkerThroughDelete (indexFromPos st.doc pos)) }
  else st

/-- The `#` branch of `SnippetManager.handleSnippet`: a mark decoration is
registered over the range `[from, from + 1)` where
`from = indexFromPos(doc, pos)` — the sentinel character itself is *not*
deleted; the document is left untouched and the one-character mark covers
the `#`. -/
def hashStep (pos : EdPos) (st : SnipState) : SnipState :=
  { doc := st.doc
    markers := st.markers ++ [(indexFromPos st.doc pos, indexFromPos st.doc pos + 1)] }

/-- One iteration of the inner character loop of `handleSnippet`, at offset
`offsetInLine = i` and character `c` of snippet line `lineIndex`: characters
other than `#` and `~` are skipped, and the target position is
`(start.line + lineIndex, lineBaseOffset + offsetInLine)` with
`lineBaseOffset = start.ch` on the first snippet line and `0` below. -/
def processSentinel (start : EdPos) (lineIndex : Nat) (st : SnipState) (ic : Nat × Char) :
    SnipState :=
  let lineBaseOffset := if lineIndex = 0 then start.ch else 0
  let pos : EdPos := ⟨start.line + lineIndex, lineBaseOffset + ic.1⟩
  if ic.2 = '~' then tildeStep pos st
  else if ic.2 = '#' then hashStep pos st
  else st

/-- `SnippetManager.handleSnippet(value, start, editor)`, parse phase:
`value` is split into lines (`valueLines`), lines are processed bottom to
top (`for lineIndex = lines.length - 1 … 0`), and within each line the
characters right to left (`for i = lineText.length - 1 … 0`).  Cursor
selection and the cosmetic color-class assignment are not modelled. -/
def handleSnippet (valueLines : List (List Char)) (start : EdPos) (st : SnipState) : SnipState :=
  valueLines.enum.reverse.foldl
    (fun st li => li.2.enum.reverse.foldl (processSentinel start li.1) st) st

/-! ## Marker state field (`marker_state_field.ts`) -/

/-- One replacement in a transaction's change set: `delCount` characters at
offset `pos` are replaced by `insCount` characters. -/
structure DocEdit where
  pos : Nat
  delCount : Nat
  insCount : Nat
deriving DecidableEq, Repr

/-- Reprojection of a marker range through one replacement
(`value.map(tr.changes)`).  Modelled from the spec: the change-mapping of
the external decoration subsystem shifts ranges entirely right of the edit,
keeps ranges entirely left of it, and drops a range whose marked text the
edit touches («a tracked marker no longer resolves … treated as
placeholder gone»). -/
def mapRangeThroughEdit (e : DocEdit) (r : Nat × Nat) : Option (Nat × Nat) :=
  if e.pos + e.delCount ≤ r.1 then some (r.1 - e.delCount + e.insCount, r.2 - e.delCount + e.insCount)
  else if r.2 ≤ e.pos then some r
  else none

/-- The three `StateEffect`s of `marker_state_field.ts`: `addMark`,
`clearMarks`, `removeMarkBySpecAttribute` (removal by the identity of the
`reference` spec attribute, here a numeric id). -/
inductive MarkerEffect where
  | addMark (id : Nat) (r : Nat × Nat)
  | clearMarks
  | removeMark (id : Nat)
deriving DecidableEq, Repr

/-- A transaction as seen by `markerStateField.update`: document changes
plus marker effects. -/
structure MarkerTr where
  changes : List DocEdit
  effects : List MarkerEffect
deriving DecidableEq, Repr

/-- The decoration set of `markerStateField`, as `(reference id, range)`
pairs. -/
abbrev MarkerSet := List (Nat × (Nat × Nat))

/-- `markerStateField.update(value, tr)`: first `value = value.map(tr.changes)`
reprojects every range, then the effects apply in order — `addMark` inserts
the new decoration, `clearMarks` filters everything out, and
`removeMarkBySpecAttribute` keeps the decorations whose reference differs. -/
def markerFieldUpdate (value : MarkerSet) (tr : MarkerTr) : MarkerSet :=
  let mapped := tr.changes.foldl
    (fun v e => v.filterMap fun ir => (mapRangeThroughEdit e ir.2).map fun r => (ir.1, r)) value
  tr.effects.foldl
    (fun v eff =>
      match eff with
      | MarkerEffect.addMark i r => v ++ [(i, r)]
      | MarkerEffect.clearMarks => []
      | MarkerEffect.removeMark i => v.filter fun ir => ir.1 ≠ i) mapped

/-! ## Concrete fixtures used by witnesses and counterexamples -/

/-- Settings with the shipped defaults of the fields the core reads
(`DEFAULT_SETTINGS`: `minWordTriggerLength: 2`,
`wordInsertionMode: IGNORE_CASE_REPLACE`,
`ignoreDiacriticsWhenFiltering: false`, every provider enabled);
`minWordLength` is set to `0` so the word-list fixture accepts all lines. -/
def baseSettings : Settings where
  minWordTriggerLength := 2
  wordInsertionMode := WordInsertionMode.IGNORE_CASE_REPLACE
  ignoreDiacriticsWhenFiltering := false
  minWordLength := 0
  enableFileScannerProvider := true
  enableWordListProvider := true
  enableLatexProvider := true
  enableCalloutProvider := true
  enableFrontMatterProvider := true

/-- `baseSettings` with the APPEND insertion mode. -/
def appendSettings : Settings :=
  { baseSettings with wordInsertionMode := WordInsertionMode.APPEND }

/-- The word `"hello"`. -/
def helloWord : List Char := ['h', 'e', 'l', 'l', 'o']

/-- A dictionary table whose `"h"` bucket holds the single entry `"hello"`. -/
def helloTable : WordMap := [(['h'], [helloWord])]

/-- Pipeline fixture A: enabled, non-exclusive, two suggestions. -/
def providerA : SProvider Unit Nat where
  isEnabled := some fun _ => true
  getSuggestions := fun _ _ => Except.ok [1, 2]
  blocksAllOtherProviders := false

/-- Pipeline fixture B: enabled, exclusive, one suggestion. -/
def providerB : SProvider Unit Nat where
  isEnabled := some fun _ => true
  getSuggestions := fun _ _ => Except.ok [10]
  blocksAllOtherProviders := true

/-- Pipeline fixture C: enabled, non-exclusive, three suggestions. -/
def providerC : SProvider Unit Nat where
  isEnabled := some fun _ => true
  getSuggestions := fun _ _ => Except.ok [3, 4, 5]
  blocksAllOtherProviders := false

/-- Pipeline fixture: an enabled provider whose `getSuggestions` throws. -/
def providerThrowing : SProvider Unit Nat where
  isEnabled := some fun _ => true
  getSuggestions := fun _ _ => Except.error "boom"
  blocksAllOtherProviders := false

/-! ## Helper lemmas -/

/-- Sanity check: inside a closed single-line `$...$` span the scanner
reports `DOLLAR_SINGLE`. -/
theorem sanity_dollar_single :
    getLatexBlockType [['$', 'x', '$']] ⟨0, 2⟩ false = BlockType.DOLLAR_SINGLE := by decide

/-- Sanity check: an escaped `\$` is not a delimiter. -/
theorem sanity_escaped_dollar :
    getLatexBlockType [['\\', '$', 'x', '$']] ⟨0, 2⟩ false = BlockType.NONE := by decide

/-- Sanity check: between paired `$$` markers the scanner reports
`DOLLAR_MULTI`. -/
theorem sanity_dollar_multi :
    getLatexBlockType [['$', '$', 'x', '$', '$']] ⟨0, 3⟩ false = BlockType.DOLLAR_MULTI := by
  decide

/-- A provider whose `isEnabled` method is absent is skipped by the pipeline
loop: `!provider.isEnabled?.(settings)` is true, so the loop `continue`s. -/
theorem pipelineLoop_skip_none {Ctx Sug : Type} (s : Settings) (ctx : Ctx)
    (p : SProvider Ctx Sug) (hp : p.isEnabled = none) :
    ∀ (pre post : List (SProvider Ctx Sug)) (acc : List Sug),
      pipelineLoop s ctx (pre ++ p :: post) acc = pipelineLoop s ctx (pre ++ post) acc := by
  intro pre
  induction pre with
  | nil => intro post acc; simp [pipelineLoop, hp]
  | cons q rest ih =>
    intro post acc
    by_cases hq : (q.isEnabled.map fun f => f s).getD false = false
    · simp [pipelineLoop, hq, ih]
    · cases hgs : q.getSuggestions ctx s with
      | error e => simp [pipelineLoop, hq, hgs, ih]
      | ok suggestions =>
        by_cases hlen : 0 < suggestions.length
        · by_cases hb : q.blocksAllOtherProviders
          · simp [pipelineLoop, hq, hgs, hlen, hb]
          · simp [pipelineLoop, hq, hgs, hlen, hb, ih]
        · simp [pipelineLoop, hq, hgs, hlen, ih]

/-- A provider whose `getSuggestions` throws is neutral for the pipeline
loop: the `catch` swallows the error and the loop continues. -/
theorem pipelineLoop_skip_error {Ctx Sug : Type} (s : Settings) (ctx : Ctx)
    (p : SProvider Ctx Sug) (err : String) (he : p.getSuggestions ctx s = Except.error err) :
    ∀ (pre post : List (SProvider Ctx Sug)) (acc : List Sug),
      pipelineLoop s ctx (pre ++ p :: post) acc = pipelineLoop s ctx (pre ++ post) acc := by
  intro pre
  induction pre with
  | nil =>
    intro post acc
    by_cases hp : (p.isEnabled.map fun f => f s).getD false = false
    · simp [pipelineLoop, hp]
    · simp [pipelineLoop, hp, he]
  | cons q rest ih =>
    intro post acc
    by_cases hq : (q.isEnabled.map fun f => f s).getD false = false
    · simp [pipelineLoop, hq, ih]
    · cases hgs : q.getSuggestions ctx s with
      | error e => simp [pipelineLoop, hq, hgs, ih]
      | ok suggestions =>
        by_cases hlen : 0 < suggestions.length
        · by_cases hb : q.blocksAllOtherProviders
          · simp [pipelineLoop, hq, hgs, hlen, hb]
          · simp [pipelineLoop, hq, hgs, hlen, hb, ih]
        · simp [pipelineLoop, hq, hgs, hlen, ih]

/-- A character that is neither `$` nor `` ` `` produces no token and the
scan moves on. -/
theorem scanRevTokens_cons_other {x : Char} (hx1 : x ≠ '$') (hx2 : x ≠ '`') (l : List Char) :
    scanRevTokens (x :: l) = scanRevTokens l := by
  rw [scanRevTokens.eq_def]
  split <;> simp_all

/-- A hit of the pairing pass's `findIndex` lies strictly beyond `idx` and
within the stack. -/
theorem findSameType_gt {stack : List Token} {idx : Nat} {t : BlockType} {n : Nat}
    (h : findSameType stack idx t = some n) : idx < n ∧ n < stack.length := by
  unfold findSameType at h
  cases hf : (stack.drop (idx + 1)).findIdx? fun x => x.type = t with
  | none => rw [hf] at h; cases h
  | some r =>
    rw [hf] at h
    have hr : r < (stack.drop (idx + 1)).length := List.findIdx?_eq_some_iff_findIdx_eq.mp hf |>.1
    rw [List.length_drop] at hr
    simp only [Option.some.injEq] at h
    omega

/-- The pairing-pass fuel is irrelevant once it exceeds the remaining stack
length: `pairStack`'s choice of `stack.length + 1` is enough for the loop
to run to completion. -/
theorem pairStackAux_fuel_irrelevant (stack : List Token) (posLine : Nat) (trigger : Bool) :
    ∀ fuel1 fuel2 idx, stack.length < idx + fuel1 → stack.length < idx + fuel2 →
      pairStackAux stack posLine trigger idx fuel1 = pairStackAux stack posLine trigger idx fuel2 := by
  intro fuel1
  induction fuel1 with
  | zero =>
    intro fuel2 idx h1 h2
    cases fuel2 with
    | zero => rfl
    | succ f2 =>
      show BlockType.NONE = pairStackAux stack posLine trigger idx (f2 + 1)
      rw [pairStackAux, dif_neg (by omega)]
  | succ f1 ih =>
    intro fuel2 idx h1 h2
    cases fuel2 with
    | zero =>
      show pairStackAux stack posLine trigger idx (f1 + 1) = BlockType.NONE
      rw [pairStackAux, dif_neg (by omega)]
    | succ f2 =>
      rw [pairStackAux, pairStackAux]
      by_cases hidx : idx < stack.length
      · rw [dif_pos hidx, dif_pos hidx]
        dsimp only
        cases hf : findSameType stack idx (stack.get ⟨idx, hidx⟩).type with
        | none =>
          split_ifs <;> try rfl
          exact ih f2 (idx + 1) (by omega) (by omega)
        | some n =>
          have hb := findSameType_gt hf
          exact ih f2 (n + 1) (by omega) (by omega)
      · rw [dif_neg hidx, dif_neg hidx]

/-- An unescaped `$` whose left neighbour is not `$` is a single-width
token. -/
theorem scanRevTokens_dollar_single (rest : List Char)
    (h : rest.headD ' ' ≠ '\\' ∧ rest.headD ' ' ≠ '$') :
    scanRevTokens ('$' :: rest) = BlockType.DOLLAR_SINGLE :: scanRevTokens rest := by
  cases rest with
  | nil => rfl
  | cons c rs =>
    simp only [List.headD_cons] at h
    rw [scanRevTokens.eq_def]
    split <;> try simp_all
    all_goals
      rename_i hne1 hne2 heq
      obtain ⟨h1, h2⟩ := heq
      exact hne1 h1.symm

/-- An unescaped `` ` `` that does not close a ```` ``` ```` fence is a
single-width token. -/
theorem scanRevTokens_code_single (rest : List Char)
    (h : rest.headD ' ' ≠ '\\' ∧
      ¬(rest.headD ' ' = '`' ∧ rest.tail.headD ' ' = '`')) :
    scanRevTokens ('`' :: rest) = BlockType.CODE_SINGLE :: scanRevTokens rest := by
  cases rest with
  | nil => rfl
  | cons c rs =>
    cases rs with
    | nil =>
      simp only [List.headD_cons] at h
      rw [scanRevTokens.eq_def]
      split <;> try simp_all
      all_goals
        rename_i hne1 hne2 heq
        obtain ⟨h1, h2⟩ := heq
        first
          | exact hne1 h1.symm
          | exact hne2 h1.symm
    | cons c2 rs2 =>
      simp only [List.headD_cons, List.tail_cons] at h
      rw [scanRevTokens.eq_def]
      split <;> try simp_all
      all_goals
        rename_i hne1 hne2 heq
        obtain ⟨h1, h2⟩ := heq
        first
          | exact hne1 h1.symm
          | exact hne2 h1.symm

/-- `line.charAt(j)` in range equals the list element. -/
theorem getD_eq_get (line : List Char) (n : Nat) (h : n < line.length) :
    line.getD n ' ' = line.get ⟨n, h⟩ := by
  simp [List.getD_eq_getElem?_getD, List.getElem?_eq_getElem h]

/-- Reading one more character right-to-left conses the element at the new
index onto the reversed prefix. -/
theorem take_reverse_succ (line : List Char) (n : Nat) (h : n < line.length) :
    (line.take (n + 1)).reverse = line.get ⟨n, h⟩ :: (line.take n).reverse := by
  rw [List.take_succ]
  simp [List.getElem?_eq_getElem h]

/-- Validation of the scanner embedding: the literal index-based
transcription `scanLineTokensIdx` of the source's right-to-left character
loop computes the same tokens as the reversed-prefix formulation
`scanLineTokens` used by `collectTokens`, for every in-range starting
count (`pos.ch ≤ line.length` on the cursor's line, `line.length`
elsewhere). -/
theorem scanLineTokensIdx_eq_scanRev (line : List Char) :
    ∀ n, n ≤ line.length → scanLineTokensIdx line n = scanLineTokens line n := by
  intro n
  induction n using Nat.strong_induction_on with
  | h n ih =>
    cases n with
    | zero =>
      intro _
      rw [scanLineTokensIdx]
      rfl
    | succ n =>
      intro hn1
      have hn : n < line.length := by omega
      have ihn : scanLineTokensIdx line n = scanRevTokens (line.take n).reverse := by
        have h := ih n (by omega) (by omega)
        rwa [scanLineTokens] at h
      rw [scanLineTokens, take_reverse_succ line n hn]
      rw [scanLineTokensIdx]
      rw [getD_eq_get line n hn]
      by_cases hc1 : line.get ⟨n, hn⟩ = '$'
      · rw [if_pos hc1, hc1]
        by_cases hesc : n > 0 ∧ line.getD (n - 1) ' ' = '\\'
        · rw [if_pos hesc]
          obtain ⟨hn0, hbs⟩ := hesc
          have hm : n - 1 < line.length := by omega
          have hrw : (line.take n).reverse =
              line.get ⟨n - 1, hm⟩ :: (line.take (n - 1)).reverse := by
            have h := take_reverse_succ line (n - 1) hm
            rwa [Nat.sub_add_cancel hn0] at h
          have hbs' : line.get ⟨n - 1, hm⟩ = '\\' := by
            rw [← getD_eq_get line (n - 1) hm]
            exact hbs
          rw [hrw, hbs']
          show scanLineTokensIdx line n = scanRevTokens ('\\' :: (line.take (n - 1)).reverse)
          rw [show ('\\' :: (line.take (n - 1)).reverse) = (line.take n).reverse from by
            rw [hrw, hbs']]
          exact ihn
        · rw [if_neg hesc]
          by_cases hmul : n + 1 ≥ 2 ∧ substringMatches line ['$', '$'] (n + 1 - 2)
          · rw [if_pos hmul]
            obtain ⟨h2, hsub⟩ := hmul
            have hn0 : 0 < n := by omega
            have hm : n - 1 < line.length := by omega
            have h21 : n + 1 - 2 = n - 1 := by omega
            rw [h21] at hsub
            unfold substringMatches at hsub
            rw [Bool.and_eq_true] at hsub
            have hpre := hsub.2
            rw [List.isPrefixOf_iff_prefix] at hpre
            obtain ⟨t, ht⟩ := hpre
            rw [List.drop_eq_getElem_cons hm] at ht
            injection ht with he1 _
            have hsub' : line.get ⟨n - 1, hm⟩ = '$' := by
              rw [List.get_eq_getElem]
              exact he1.symm
            have hrw : (line.take n).reverse =
                line.get ⟨n - 1, hm⟩ :: (line.take (n - 1)).reverse := by
              have h := take_reverse_succ line (n - 1) hm
              rwa [Nat.sub_add_cancel hn0] at h
            rw [hrw, hsub']
            show BlockType.DOLLAR_MULTI :: scanLineTokensIdx line (n + 1 - 2) =
              scanRevTokens ('$' :: '$' :: (line.take (n - 1)).reverse)
            rw [show scanRevTokens ('$' :: '$' :: (line.take (n - 1)).reverse) =
              BlockType.DOLLAR_MULTI :: scanRevTokens (line.take (n - 1)).reverse from rfl]
            rw [h21]
            have h := ih (n - 1) (by omega) (by omega)
            rw [scanLineTokens] at h
            rw [h]
          · rw [if_neg hmul]
            have hcond : ((line.take n).reverse.headD ' ' ≠ '\\' ∧
                (line.take n).reverse.headD ' ' ≠ '$') := by
              rcases Nat.eq_zero_or_pos n with hn0 | hn0
              · subst hn0
                constructor <;> simp
              · have hm : n - 1 < line.length := by omega
                have hrw : (line.take n).reverse =
                    line.get ⟨n - 1, hm⟩ :: (line.take (n - 1)).reverse := by
                  have h := take_reverse_succ line (n - 1) hm
                  rwa [Nat.sub_add_cancel hn0] at h
                rw [hrw]
                simp only [List.headD_cons]
                constructor
                · intro hx
                  exact hesc ⟨hn0, by rw [getD_eq_get line (n - 1) hm, hx]⟩
                · intro hx
                  apply hmul
                  refine ⟨by omega, ?_⟩
                  rw [show n + 1 - 2 = n - 1 from by omega]
                  unfold substringMatches
                  rw [Bool.and_eq_true]
                  constructor
                  · simp only [List.length_cons, decide_eq_true_eq]
                    simp
                    omega
                  · rw [List.isPrefixOf_iff_prefix]
                    rw [List.drop_eq_getElem_cons hm,
                      show n - 1 + 1 = n from by omega,
                      List.drop_eq_getElem_cons hn]
                    rw [List.get_eq_getElem] at hx hc1
                    rw [hx, hc1]
                    exact ⟨line.drop (n + 1), rfl⟩
            rw [scanRevTokens_dollar_single _ hcond]
            rw [ihn]
      · rw [if_neg hc1]
        by_cases hc2 : line.get ⟨n, hn⟩ = '`'
        · rw [if_pos hc2, hc2]
          by_cases hesc : n > 0 ∧ line.getD (n - 1) ' ' = '\\'
          · rw [if_pos hesc]
            obtain ⟨hn0, hbs⟩ := hesc
            have hm : n - 1 < line.length := by omega
            have hrw : (line.take n).reverse =
                line.get ⟨n - 1, hm⟩ :: (line.take (n - 1)).reverse := by
              have h := take_reverse_succ line (n - 1) hm
              rwa [Nat.sub_add_cancel hn0] at h
            have hbs' : line.get ⟨n - 1, hm⟩ = '\\' := by
              rw [← getD_eq_get line (n - 1) hm]
              exact hbs
            rw [hrw, hbs']
            show scanLineTokensIdx line n = scanRevTokens ('\\' :: (line.take (n - 1)).reverse)
            rw [show ('\\' :: (line.take (n - 1)).reverse) = (line.take n).reverse from by
              rw [hrw, hbs']]
            exact ihn
          · rw [if_neg hesc]
            by_cases hmul : n + 1 ≥ 3 ∧ substringMatches line ['`', '`', '`'] (n + 1 - 3)
            · rw [if_pos hmul]
              obtain ⟨h3, hsub⟩ := hmul
              have hn2 : 2 ≤ n := by omega
              have hm1 : n - 1 < line.length := by omega
              have hm2 : n - 2 < line.length := by omega
              have h31 : n + 1 - 3 = n - 2 := by omega
              rw [h31] at hsub
              unfold substringMatches at hsub
              rw [Bool.and_eq_true] at hsub
              have hpre := hsub.2
              rw [List.isPrefixOf_iff_prefix] at hpre
              obtain ⟨t, ht⟩ := hpre
              rw [List.drop_eq_getElem_cons hm2,
                show n - 2 + 1 = n - 1 from by omega,
                List.drop_eq_getElem_cons hm1] at ht
              injection ht with he1 ht'
              injection ht' with he2 _
              have hrw1 : (line.take n).reverse =
                  line.get ⟨n - 1, hm1⟩ :: (line.take (n - 1)).reverse := by
                have h := take_reverse_succ line (n - 1) hm1
                rwa [Nat.sub_add_cancel (by omega : 0 < n)] at h
              have hrw2 : (line.take (n - 1)).reverse =
                  line.get ⟨n - 2, hm2⟩ :: (line.take (n - 2)).reverse := by
                have h := take_reverse_succ line (n - 2) hm2
                rwa [show n - 2 + 1 = n - 1 from by omega] at h
              have he1' : line.get ⟨n - 2, hm2⟩ = '`' := by
                rw [List.get_eq_getElem]
                exact he1.symm
              have he2' : line.get ⟨n - 1, hm1⟩ = '`' := by
                rw [List.get_eq_getElem]
                exact he2.symm
              rw [hrw1, hrw2, he1', he2']
              show BlockType.CODE_MULTI :: scanLineTokensIdx line (n + 1 - 3) =
                scanRevTokens ('`' :: '`' :: '`' :: (line.take (n - 2)).reverse)
              rw [show scanRevTokens ('`' :: '`' :: '`' :: (line.take (n - 2)).reverse) =
                BlockType.CODE_MULTI :: scanRevTokens (line.take (n - 2)).reverse from rfl]
              rw [h31]
              have h := ih (n - 2) (by omega) (by omega)
              rw [scanLineTokens] at h
              rw [h]
            · rw [if_neg hmul]
              have hcond : ((line.take n).reverse.headD ' ' ≠ '\\' ∧
                  ¬((line.take n).reverse.headD ' ' = '`' ∧
                    (line.take n).reverse.tail.headD ' ' = '`')) := by
                rcases Nat.eq_zero_or_pos n with hn0 | hn0
                · subst hn0
                  constructor <;> simp
                · have hm1 : n - 1 < line.length := by omega
                  have hrw1 : (line.take n).reverse =
                      line.get ⟨n - 1, hm1⟩ :: (line.take (n - 1)).reverse := by
                    have h := take_reverse_succ line (n - 1) hm1
                    rwa [Nat.sub_add_cancel hn0] at h
                  rw [hrw1]
                  simp only [List.headD_cons, List.tail_cons]
                  constructor
                  · intro hx
                    exact hesc ⟨hn0, by rw [getD_eq_get line (n - 1) hm1, hx]⟩
                  · rintro ⟨hx1, hx2⟩
                    rcases Nat.lt_or_ge n 2 with hlt | hge
                    · have hne1 : n = 1 := by omega
                      subst hne1
                      simp at hx2
                    · have hm2 : n - 2 < line.length := by omega
                      have hrw2 : (line.take (n - 1)).reverse =
                          line.get ⟨n - 2, hm2⟩ :: (line.take (n - 2)).reverse := by
                        have h := take_reverse_succ line (n - 2) hm2
                        rwa [show n - 2 + 1 = n - 1 from by omega] at h
                      rw [hrw2, List.headD_cons] at hx2
                      apply hmul
                      refine ⟨by omega, ?_⟩
                      rw [show n + 1 - 3 = n - 2 from by omega]
                      unfold substringMatches
                      rw [Bool.and_eq_true]
                      constructor
                      · simp only [List.length_cons, decide_eq_true_eq]
                        simp
                        omega
                      · rw [List.isPrefixOf_iff_prefix]
                        rw [List.drop_eq_getElem_cons hm2,
                          show n - 2 + 1 = n - 1 from by omega,
                          List.drop_eq_getElem_cons hm1,
                          show n - 1 + 1 = n from by omega,
                          List.drop_eq_getElem_cons hn]
                        rw [List.get_eq_getElem] at hx1 hx2 hc2
                        rw [hx1, hx2, hc2]
                        exact ⟨line.drop (n + 1), rfl⟩
              rw [scanRevTokens_code_single _ hcond]
              rw [ihn]
        · rw [if_neg hc2]
          rw [scanRevTokens_cons_other hc1 hc2]
          exact ihn

/-- A delimiter-free segment contributes no tokens. -/
theorem scanRevTokens_inert_append (xs : List Char) (h : ∀ c ∈ xs, c ≠ '$' ∧ c ≠ '`')
    (ys : List Char) : scanRevTokens (xs ++ ys) = scanRevTokens ys := by
  induction xs with
  | nil => rfl
  | cons x rest ih =>
    have hx := h x (List.mem_cons_self x rest)
    rw [List.cons_append, scanRevTokens_cons_other hx.1 hx.2]
    exact ih fun c hc => h c (List.mem_cons_of_mem x hc)

/-- The inserted word is in the bucket afterwards. -/
theorem setAdd_mem (b : List (List Char)) (w : List Char) : w ∈ setAdd b w := by
  unfold setAdd
  split_ifs with h
  · exact h
  · simp

/-- `Set.add` is idempotent. -/
theorem setAdd_idem (b : List (List Char)) (w : List Char) :
    setAdd (setAdd b w) w = setAdd b w := by
  by_cases h : w ∈ b
  · simp [setAdd, h]
  · simp [setAdd, h]

/-- Looking up the bucket just inserted into yields the bucket with the word
added. -/
theorem mapGet_mapAddToBucket (m : WordMap) (k w : List Char) :
    mapGet (mapAddToBucket m k w) k = setAdd (mapGet m k) w := by
  induction m with
  | nil => simp [mapGet, mapAddToBucket, setAdd]
  | cons e rest ih =>
    obtain ⟨k', b⟩ := e
    by_cases h : k' = k
    · simp [mapGet, mapAddToBucket, h]
    · simp [mapGet, mapAddToBucket, h, ih]

/-- Inserting the same word twice into the bucketed map is a no-op the
second time. -/
theorem mapAddToBucket_idem (m : WordMap) (k w : List Char) :
    mapAddToBucket (mapAddToBucket m k w) k w = mapAddToBucket m k w := by
  induction m with
  | nil => simp [mapAddToBucket, setAdd_idem, setAdd]
  | cons e rest ih =>
    obtain ⟨k', b⟩ := e
    by_cases h : k' = k
    · simp [mapAddToBucket, h, setAdd_idem]
    · simp [mapAddToBucket, h, ih]

/-- A member of a duplicate-free list is counted exactly once. -/
theorem count_one_of_mem_nodup {a : List Char} {l : List (List Char)}
    (hd : l.Nodup) (h : a ∈ l) : l.count a = 1 := by
  induction l with
  | nil => cases h
  | cons b rest ih =>
    rw [List.count_cons]
    rcases List.mem_cons.mp h with rfl | hmem
    · have hnotin : a ∉ rest := (List.nodup_cons.mp hd).1
      simp [List.count_eq_zero.mpr hnotin]
    · have hne : a ≠ b := by
        rintro rfl
        exact (List.nodup_cons.mp hd).1 hmem
      simp [ih (List.nodup_cons.mp hd).2 hmem, hne, Ne.symm hne]

/-- Reprojection through one replacement never resizes a one-character
range: the range is shifted, kept, or dropped. -/
theorem mapRangeThroughEdit_len1 (e : DocEdit) (r r' : Nat × Nat)
    (hr : r.2 = r.1 + 1) (h : mapRangeThroughEdit e r = some r') : r'.2 = r'.1 + 1 := by
  unfold mapRangeThroughEdit at h
  split_ifs at h with h1 h2
  · rw [Option.some.injEq] at h
    subst h
    dsimp only
    omega
  · rw [Option.some.injEq] at h
    subst h
    exact hr

/-- `markerStateField.update` preserves "every live range spans exactly one
character" provided every `addMark` effect of the transaction adds a
one-character range. -/
theorem markerFieldUpdate_len1 (v : MarkerSet) (tr : MarkerTr)
    (hv : ∀ ir ∈ v, ir.2.2 = ir.2.1 + 1)
    (hadd : ∀ i r, MarkerEffect.addMark i r ∈ tr.effects → r.2 = r.1 + 1) :
    ∀ ir ∈ markerFieldUpdate v tr, ir.2.2 = ir.2.1 + 1 := by
  unfold markerFieldUpdate
  have hmapped : ∀ (es : List DocEdit) (v : MarkerSet), (∀ ir ∈ v, ir.2.2 = ir.2.1 + 1) →
      ∀ ir ∈ es.foldl
        (fun v e => v.filterMap fun ir => (mapRangeThroughEdit e ir.2).map fun r => (ir.1, r)) v,
      ir.2.2 = ir.2.1 + 1 := by
    intro es
    induction es with
    | nil => intro v hv; exact hv
    | cons e es ih =>
      intro v hv
      simp only [List.foldl_cons]
      apply ih
      intro ir hir
      simp only [List.mem_filterMap] at hir
      obtain ⟨ir0, h0, hmapeq⟩ := hir
      rw [Option.map_eq_some'] at hmapeq
      obtain ⟨r, hre, hir'⟩ := hmapeq
      subst hir'
      exact mapRangeThroughEdit_len1 e ir0.2 r (hv ir0 h0) hre
  have heff : ∀ (es : List MarkerEffect) (v : MarkerSet),
      (∀ i r, MarkerEffect.addMark i r ∈ es → r.2 = r.1 + 1) →
      (∀ ir ∈ v, ir.2.2 = ir.2.1 + 1) →
      ∀ ir ∈ es.foldl
        (fun v eff =>
          match eff with
          | MarkerEffect.addMark i r => v ++ [(i, r)]
          | MarkerEffect.clearMarks => []
          | MarkerEffect.removeMark i => v.filter fun ir => ir.1 ≠ i) v,
      ir.2.2 = ir.2.1 + 1 := by
    intro es
    induction es with
    | nil => intro v _ hv; exact hv
    | cons eff es ih =>
      intro v hae hv
      simp only [List.foldl_cons]
      apply ih _ fun i r hr => hae i r (List.mem_cons_of_mem _ hr)
      cases eff with
      | addMark i r =>
        intro ir hir
        simp only [List.mem_append, List.mem_singleton] at hir
        rcases hir with h | h
        · exact hv ir h
        · subst h
          exact hae i r (List.mem_cons_self _ _)
      | clearMarks => intro ir hir; simp at hir
      | removeMark i => intro ir hir; exact hv ir (List.mem_of_mem_filter hir)
  exact heff tr.effects _ hadd (hmapped tr.changes v hv)

/-! ## Claims -/

/-- C2: for every provider list evaluated in its fixed priority order, the
first provider that is enabled, returns a non-empty result, and is marked
exclusive makes the composed result exactly its own result; later providers
are not consulted (and earlier non-exclusive contributions are discarded —
the loop does `allSuggestions = suggestions; break`). -/
theorem C2_pipeline_exclusive {Ctx Sug : Type} (s : Settings) (ctx : Ctx)
    (pre post : List (SProvider Ctx Sug)) (p : SProvider Ctx Sug) (l : List Sug)
    (hen : (p.isEnabled.map fun f => f s).getD false = true)
    (hok : p.getSuggestions ctx s = Except.ok l) (hne : l ≠ [])
    (hex : p.blocksAllOtherProviders = true)
    (hpre : ∀ q ∈ pre, ¬((q.isEnabled.map fun f => f s).getD false = true ∧
        q.blocksAllOtherProviders = true ∧
        ∃ l', q.getSuggestions ctx s = Except.ok l' ∧ l' ≠ [])) :
    composeSuggestions s ctx (pre ++ p :: post) = l := by
  have key : ∀ (pre' : List (SProvider Ctx Sug)),
      (∀ q ∈ pre', ¬((q.isEnabled.map fun f => f s).getD false = true ∧
        q.blocksAllOtherProviders = true ∧
        ∃ l', q.getSuggestions ctx s = Except.ok l' ∧ l' ≠ [])) →
      ∀ acc, pipelineLoop s ctx (pre' ++ p :: post) acc = l := by
    intro pre'
    induction pre' with
    | nil =>
      intro _ acc
      have hlen : 0 < l.length := List.length_pos.mpr hne
      simp [pipelineLoop, hen, hok, hlen, hex]
    | cons q rest ih =>
      intro hq acc
      have hqc := hq q (List.mem_cons_self q rest)
      have hrest : ∀ r ∈ rest, ¬((r.isEnabled.map fun f => f s).getD false = true ∧
          r.blocksAllOtherProviders = true ∧
          ∃ l', r.getSuggestions ctx s = Except.ok l' ∧ l' ≠ []) :=
        fun r hr => hq r (List.mem_cons_of_mem q hr)
      by_cases hqe : (q.isEnabled.map fun f => f s).getD false = false
      · simp [pipelineLoop, hqe, ih hrest]
      · cases hgs : q.getSuggestions ctx s with
        | error e => simp [pipelineLoop, hqe, hgs, ih hrest]
        | ok suggestions =>
          by_cases hlen : 0 < suggestions.length
          · by_cases hb : q.blocksAllOtherProviders
            · exact absurd ⟨by simpa using hqe, hb,
                suggestions, hgs, List.ne_nil_of_length_pos hlen⟩ hqc
            · simp [pipelineLoop, hqe, hgs, hlen, hb, ih hrest]
          · simp [pipelineLoop, hqe, hgs, hlen, ih hrest]
  exact key pre hpre []

/-- C2 witness: providers A (non-exclusive, 2 items), B (exclusive, 1 item),
C (non-exclusive, 3 items) evaluated in order A, B, C compose to exactly
B's single item. -/
theorem C2_pipeline_exclusive_witness :
    composeSuggestions baseSettings () [providerA, providerB, providerC] = [10] :=
  C2_pipeline_exclusive baseSettings () [providerA] [providerC] providerB [10]
    rfl rfl (by simp) rfl
    (by
      intro q hq
      simp only [List.mem_singleton] at hq
      subst hq
      simp [providerA])

/-- C6: a provider whose `getSuggestions` throws contributes zero
suggestions and the pipeline continues with the remaining providers; the
other providers' contributions are unchanged. -/
theorem C6_provider_error_isolated {Ctx Sug : Type} (s : Settings) (ctx : Ctx)
    (pre post : List (SProvider Ctx Sug)) (p : SProvider Ctx Sug) (err : String)
    (he : p.getSuggestions ctx s = Except.error err) :
    composeSuggestions s ctx (pre ++ p :: post) = composeSuggestions s ctx (pre ++ post) :=
  pipelineLoop_skip_error s ctx p err he pre post []

/-- C6 witness: a throwing provider between A and C leaves the composed
result exactly what A and C alone produce. -/
theorem C6_provider_error_isolated_witness :
    composeSuggestions baseSettings () [providerA, providerThrowing, providerC] =
      composeSuggestions baseSettings () [providerA, providerC] ∧
    composeSuggestions baseSettings () [providerA, providerC] = [1, 2, 3, 4, 5] :=
  ⟨C6_provider_error_isolated baseSettings () [providerA] [providerC] providerThrowing
    "boom" rfl, rfl⟩

/-- C10: the pipeline's enabled check `!provider.isEnabled?.(settings)`
treats a missing `isEnabled` method as disabled, so the Latex, Callout and
FrontMatter providers — whose classes declare no `isEnabled` — are skipped
unconditionally: for every context, settings, word tables and provider
bodies, composing the actual provider list
`[FileScanner, WordList, Latex, Callout, FrontMatter]` gives exactly what
the first two providers alone produce. -/
theorem C10_missing_isEnabled_skipped {Ctx : Type} (mFS mWL : WordMap)
    (queryOf : Ctx → List Char)
    (gL gC gF : Ctx → Settings → Except String (List (List Char)))
    (s : Settings) (ctx : Ctx) :
    composeSuggestions s ctx [fileScannerEntry mFS queryOf, wordListEntry mWL queryOf,
      latexEntry gL, calloutEntry gC, frontMatterEntry gF] =
    composeSuggestions s ctx [fileScannerEntry mFS queryOf, wordListEntry mWL queryOf] := by
  have h1 := pipelineLoop_skip_none s ctx (latexEntry gL) rfl
    [fileScannerEntry mFS queryOf, wordListEntry mWL queryOf]
    [calloutEntry gC, frontMatterEntry gF] []
  have h2 := pipelineLoop_skip_none s ctx (calloutEntry gC) rfl
    [fileScannerEntry mFS queryOf, wordListEntry mWL queryOf] [frontMatterEntry gF] []
  have h3 := pipelineLoop_skip_none s ctx (frontMatterEntry gF) rfl
    [fileScannerEntry mFS queryOf, wordListEntry mWL queryOf] [] []
  exact h1.trans (h2.trans h3)

/-- C5: on a table holding `"hello"` with query `"Hel"`, case-insensitive
REPLACE returns replacement `"hello"` and APPEND returns `"Hello"` (literal
typed query plus the candidate's remainder). -/
theorem C5_replace_vs_append :
    dictGetSuggestions true helloTable ['H', 'e', 'l'] baseSettings = [helloWord] ∧
    dictGetSuggestions true helloTable ['H', 'e', 'l'] appendSettings =
      [['H', 'e', 'l', 'l', 'o']] := by
  decide

/-- C1 counterexample: in the two-line document `"$"` / `` "`" `` with the
cursor at the end of line 1, the token on line 0 — the token *farthest*
from the cursor — sits at stack index 0 and the cursor-line token after it:
the stack is not in nearest-to-cursor-first order (lines are not
non-increasing along the stack), because the collection loop iterates
`lineIndex` forward from the top of the window down to the cursor line. -/
theorem C1_counterexample :
    collectTokens [['$'], ['`']] ⟨1, 1⟩ =
      [⟨BlockType.DOLLAR_SINGLE, 0⟩, ⟨BlockType.CODE_SINGLE, 1⟩] ∧
    ¬ List.Pairwise (fun a b : Token => b.line ≤ a.line) (collectTokens [['$'], ['`']] ⟨1, 1⟩) := by
  decide

/-- C1 (amended): the token-collection phase pushes tokens in *top-down line
order* — line numbers are non-decreasing along the stack (right-to-left
within each line, hence nearest-to-cursor-first only among the cursor
line's own tokens) — and the pairing pass starts at stack index 0, the
rightmost token of the earliest line of the scan window. -/
theorem C1_token_stack_line_order (doc : Doc) (pos : EdPos) :
    List.Pairwise (fun a b : Token => a.line ≤ b.line) (collectTokens doc pos) := by
  unfold collectTokens
  rw [List.pairwise_flatten]
  constructor
  · intro l' hl'
    simp only [List.mem_map] at hl'
    obtain ⟨li, _, rfl⟩ := hl'
    by_cases h : inFrontMatterWindow (getFrontMatterBounds doc) li = true
    · simp [h]
    · simp only [h, if_false, Bool.false_eq_true]
      rw [List.pairwise_map]
      exact List.pairwise_of_forall fun _ _ => le_refl li
  · rw [List.pairwise_map]
    have hr := List.pairwise_lt_range' (pos.line - 5000)
      (pos.line + 1 - (pos.line - 5000)) 1 Nat.one_pos
    refine hr.imp ?_
    intro i j hij x hx y hy
    have hxi : x.line = i := by
      by_cases h : inFrontMatterWindow (getFrontMatterBounds doc) i = true
      · simp [h] at hx
      · simp only [h, if_false, Bool.false_eq_true, List.mem_map] at hx
        obtain ⟨t, _, rfl⟩ := hx
        rfl
    have hyj : y.line = j := by
      by_cases h : inFrontMatterWindow (getFrontMatterBounds doc) j = true
      · simp [h] at hy
      · simp only [h, if_false, Bool.false_eq_true, List.mem_map] at hy
        obtain ⟨t, _, rfl⟩ := hy
        rfl
    omega

/-- C7 counterexample: the document `"$$ $ x $$"` contains a paired
`$$ … $$` region (offsets 0–1 and 7–8) and the cursor at `ch = 6` sits
strictly between the paired markers, yet classification returns
`DOLLAR_SINGLE` (from the stray unmatched `$` at offset 3, which is nearer
the cursor), not `DOLLAR_MULTI`. -/
theorem C7_counterexample :
    getLatexBlockType [['$', '$', ' ', '$', ' ', 'x', ' ', '$', '$']] ⟨0, 6⟩ false =
      BlockType.DOLLAR_SINGLE ∧
    getLatexBlockType [['$', '$', ' ', '$', ' ', 'x', ' ', '$', '$']] ⟨0, 6⟩ false ≠
      BlockType.DOLLAR_MULTI := by
  decide

/-- C7 (amended): on a one-line document `pre ++ "$$" ++ mid ++ "$$" ++ post`
whose `pre` and `mid` segments contain no further `$` or `` ` ``
delimiters, every cursor position strictly between the paired `$$` markers
classifies as `DOLLAR_MULTI` — the two adjacent `$` characters are consumed
as one wide token, never as two `DOLLAR_SINGLE` delimiters — for either
value of `triggerInCodeBlocks`. -/
theorem C7_dollar_multi_precedence (pre mid post : List Char) (t : Bool) (k : Nat)
    (hpre : ∀ c ∈ pre, c ≠ '$' ∧ c ≠ '`') (hmid : ∀ c ∈ mid, c ≠ '$' ∧ c ≠ '`')
    (hk : k ≤ mid.length) :
    getLatexBlockType [pre ++ ['$', '$'] ++ mid ++ ['$', '$'] ++ post]
      ⟨0, pre.length + 2 + k⟩ t = BlockType.DOLLAR_MULTI := by
  set line : List Char := pre ++ ['$', '$'] ++ mid ++ ['$', '$'] ++ post with hline
  have hfm : getFrontMatterBounds [line] = none := rfl
  have htake : line.take (pre.length + 2 + k) = pre ++ '$' :: '$' :: mid.take k := by
    have hassoc : line = pre ++ ('$' :: '$' :: (mid ++ ('$' :: '$' :: post))) := by
      simp [hline, List.append_assoc]
    have hadd : pre.length + 2 + k = pre.length + (k + 1 + 1) := by omega
    rw [hassoc, hadd, List.take_append, List.take_succ_cons, List.take_succ_cons,
      List.take_append_of_le_length hk]
  have hrev : (pre ++ '$' :: '$' :: mid.take k).reverse =
      (mid.take k).reverse ++ ('$' :: '$' :: pre.reverse) := by
    simp
  have hscan : scanRevTokens ((line.take (pre.length + 2 + k)).reverse) =
      [BlockType.DOLLAR_MULTI] := by
    rw [htake, hrev, scanRevTokens_inert_append (mid.take k).reverse
      (fun c hc => hmid c (List.mem_of_mem_take (List.mem_reverse.mp hc)))]
    show BlockType.DOLLAR_MULTI :: scanRevTokens pre.reverse = _
    have := scanRevTokens_inert_append pre.reverse
      (fun c hc => hpre c (List.mem_reverse.mp hc)) []
    rw [List.append_nil] at this
    rw [this]
    rfl
  have hstack : collectTokens [line] ⟨0, pre.length + 2 + k⟩ =
      [⟨BlockType.DOLLAR_MULTI, 0⟩] := by
    simp [collectTokens, hfm, scanLineTokens, getLine, inFrontMatterWindow, hscan]
  show pairStack (collectTokens [line] ⟨0, pre.length + 2 + k⟩) 0 t = BlockType.DOLLAR_MULTI
  rw [hstack]
  cases t <;> rfl

/-- C7 witness: the concrete document `"a $$x$$ b"` with the cursor between
the paired `$$` markers classifies as `DOLLAR_MULTI`. -/
theorem C7_dollar_multi_precedence_witness :
    getLatexBlockType [['a', ' ', '$', '$', 'x', '$', '$', ' ', 'b']] ⟨0, 5⟩ false =
      BlockType.DOLLAR_MULTI :=
  C7_dollar_multi_precedence ['a', ' '] ['x'] [' ', 'b'] false 1
    (by decide) (by decide) (by decide)

/-- C3 counterexample: handling the accepted snippet text `"#"` inserted at
the start of the document `"#"` leaves the `#` character in the document —
the sentinel is *not* deleted — while a marker over it is registered; the
claim's asserted deletion of the `#` does not happen. -/
theorem C3_counterexample :
    (handleSnippet [['#']] ⟨0, 0⟩ ⟨[['#']], []⟩).doc = [['#']] ∧
    (handleSnippet [['#']] ⟨0, 0⟩ ⟨[['#']], []⟩).markers = [(0, 1)] := by
  decide

/-- C3 (amended): for each `#` sentinel encountered during the
bottom-to-top, right-to-left parse phase, the snippet manager registers a
single-character live marker over the (undeleted) `#` at that position: the
`#` branch leaves the document unchanged and appends the marker
`[from, from+1)`, and every marker live after `handleSnippet` — new or
reprojected through the `~` deletions — spans exactly one character. -/
theorem C3_hash_marker_registered :
    (∀ (pos : EdPos) (st : SnipState), (hashStep pos st).doc = st.doc ∧
      (hashStep pos st).markers =
        st.markers ++ [(indexFromPos st.doc pos, indexFromPos st.doc pos + 1)]) ∧
    ∀ (valueLines : List (List Char)) (start : EdPos) (st : SnipState),
      (∀ m ∈ st.markers, m.2 = m.1 + 1) →
      ∀ m ∈ (handleSnippet valueLines start st).markers, m.2 = m.1 + 1 := by
  constructor
  · intro pos st
    exact ⟨rfl, rfl⟩
  · intro valueLines start st hst
    have hdel : ∀ (d : Nat) (m m' : Nat × Nat), m.2 = m.1 + 1 →
        mapMarkerThroughDelete d m = some m' → m'.2 = m'.1 + 1 := by
      intro d m m' hm hmap
      simp only [mapMarkerThroughDelete, Option.ite_none_right_eq_some,
        Option.some.injEq] at hmap
      obtain ⟨hft, heq⟩ := hmap
      subst heq
      by_cases h1 : d < m.1 <;> by_cases h2 : d < m.2 <;>
        simp only [h1, h2, if_true, if_false] <;> simp [h1, h2] at hft <;> omega
    have htil : ∀ (pos : EdPos) (st : SnipState), (∀ m ∈ st.markers, m.2 = m.1 + 1) →
        ∀ m ∈ (tildeStep pos st).markers, m.2 = m.1 + 1 := by
      intro pos st hm
      unfold tildeStep
      split_ifs with h3
      · intro m hmem
        simp only [List.mem_filterMap] at hmem
        obtain ⟨m0, hm0, hmap⟩ := hmem
        exact hdel _ m0 m (hm m0 hm0) hmap
      · exact hm
    have hhsh : ∀ (pos : EdPos) (st : SnipState), (∀ m ∈ st.markers, m.2 = m.1 + 1) →
        ∀ m ∈ (hashStep pos st).markers, m.2 = m.1 + 1 := by
      intro pos st hm m hmem
      unfold hashStep at hmem
      simp only [List.mem_append, List.mem_singleton] at hmem
      rcases hmem with h | h
      · exact hm m h
      · subst h; rfl
    have hstep : ∀ (li : Nat) (st : SnipState) (ic : Nat × Char),
        (∀ m ∈ st.markers, m.2 = m.1 + 1) →
        ∀ m ∈ (processSentinel start li st ic).markers, m.2 = m.1 + 1 := by
      intro li st ic hm
      simp only [processSentinel]
      split_ifs <;> first | exact htil _ st hm | exact hhsh _ st hm | exact hm
    have hinner : ∀ (li : Nat) (l : List (Nat × Char)) (st : SnipState),
        (∀ m ∈ st.markers, m.2 = m.1 + 1) →
        ∀ m ∈ (l.foldl (processSentinel start li) st).markers, m.2 = m.1 + 1 := by
      intro li l
      induction l with
      | nil => intro st h; exact h
      | cons a rest ih => intro st h; exact ih _ (hstep li st a h)
    unfold handleSnippet
    generalize valueLines.enum.reverse = outer
    induction outer generalizing st with
    | nil => exact hst
    | cons a rest ih =>
      simp only [List.foldl_cons]
      exact ih _ (hinner a.1 a.2.enum.reverse st hst)

/-- C3 witness: handling snippet text `"#"` at the document start leaves the
document unchanged, and every resulting marker spans exactly one character. -/
theorem C3_hash_marker_registered_witness :
    (hashStep ⟨0, 0⟩ ⟨[['#']], []⟩).doc = [['#']] ∧
    ∀ m ∈ (handleSnippet [['#']] ⟨0, 0⟩ ⟨[['#']], []⟩).markers, m.2 = m.1 + 1 :=
  ⟨(C3_hash_marker_registered.1 ⟨0, 0⟩ ⟨[['#']], []⟩).1,
    C3_hash_marker_registered.2 [['#']] ⟨0, 0⟩ ⟨[['#']], []⟩ (by simp)⟩

/-- C8 counterexample: the word-list table does *not* enforce uniqueness at
insert time — loading a word list whose lines contain `"hello"` twice
leaves the `"h"` bucket with two occurrences of `"hello"` (the loader uses
a plain array `push` and the finishing sort/filter does not deduplicate). -/
theorem C8_counterexample :
    (mapGet (loadWordListLines baseSettings [] [helloWord, helloWord]) ['h']).count
      helloWord = 2 ∧
    ¬(mapGet (loadWordListLines baseSettings [] [helloWord, helloWord]) ['h']).count
      helloWord = 1 := by
  decide

/-- C8 (amended): uniqueness within a bucket is enforced at insert time for
the file-scanner word table (`ScannerSuggestionProvider.addWord`, whose
buckets are `Set`s): inserting the same word twice is a no-op the second
time, and the word occurs exactly once in its bucket afterwards.  The
word-list table (`WordListSuggestionProvider.loadFromFiles`) appends
without a duplicate check and retains duplicates. -/
theorem C8_scanner_add_idempotent (bl : List (List Char)) (m : WordMap) (w : List Char)
    (hw : w ≠ []) (hbl : w ∉ bl) (hnd : (mapGet m (w.take 1)).Nodup) :
    addWord bl (addWord bl m w) w = addWord bl m w ∧
    (mapGet (addWord bl m w) (w.take 1)).count w = 1 := by
  have hguard : ¬(w = [] ∨ w ∈ bl) := by simp [hw, hbl]
  constructor
  · simp only [addWord, if_neg hguard]
    exact mapAddToBucket_idem m (w.take 1) w
  · simp only [addWord, if_neg hguard]
    rw [mapGet_mapAddToBucket]
    by_cases h : w ∈ mapGet m (w.take 1)
    · rw [setAdd, if_pos h]
      exact count_one_of_mem_nodup hnd h
    · rw [setAdd, if_neg h, List.count_append]
      simp [List.count_eq_zero_of_not_mem h]

/-- C8 witness: adding `"hello"` twice to the empty scanner table leaves one
occurrence in the `"h"` bucket and the second add is a no-op. -/
theorem C8_scanner_add_idempotent_witness :
    addWord [] (addWord [] [] helloWord) helloWord = addWord [] [] helloWord ∧
    (mapGet (addWord [] [] helloWord) (helloWord.take 1)).count helloWord = 1 :=
  C8_scanner_add_idempotent [] [] helloWord (by decide) (by decide) (by decide)

/-- C9: every live placeholder marker spans exactly one character from its
registration until it is removed: starting from a decoration set of
one-character ranges, any sequence of `markerStateField.update`
transactions — document changes reprojecting the ranges plus effects whose
`addMark`s register one-character ranges, as `handleSnippet` does — leaves
every surviving range spanning exactly one character; a marker is removed
(dropped by the reprojection or by `clearMarks`/`removeMarkBySpecAttribute`),
never resized. -/
theorem C9_marker_length_invariant (trs : List MarkerTr) (init : MarkerSet)
    (hinit : ∀ ir ∈ init, ir.2.2 = ir.2.1 + 1)
    (hadd : ∀ tr ∈ trs, ∀ i r, MarkerEffect.addMark i r ∈ tr.effects → r.2 = r.1 + 1) :
    ∀ ir ∈ trs.foldl markerFieldUpdate init, ir.2.2 = ir.2.1 + 1 := by
  induction trs generalizing init with
  | nil => simpa using hinit
  | cons tr rest ih =>
    simp only [List.foldl_cons]
    apply ih
    · exact markerFieldUpdate_len1 init tr hinit
        fun i r hr => hadd tr (List.mem_cons_self _ _) i r hr
    · intro tr' htr' i r hr
      exact hadd tr' (List.mem_cons_of_mem _ htr') i r hr

/-- C4 counterexample: with the default settings (`minWordTriggerLength = 2`)
and `"hello"` inserted into the empty scanner table, the non-empty prefix
`"h"` of `"hello"` returns no suggestion at all — the claim's "every
non-empty prefix" fails for prefixes shorter than the configured minimum. -/
theorem C4_counterexample :
    dictGetSuggestions true (addWord [] [] helloWord) ['h'] baseSettings = [] ∧
    helloWord ∉ dictGetSuggestions true (addWord [] [] helloWord) ['h'] baseSettings := by
  decide

/-- C4 (amended): the dictionary round-trip holds for queries the matcher
accepts: for every word `W` inserted into the table via
`ScannerSuggestionProvider.addWord` (non-empty, not blacklisted, first
character with an ordinary case mapping) and every non-empty literal prefix
`Q` of `W` of length at least `minWordTriggerLength`, with diacritic
folding off, the matcher's result contains a suggestion whose text equals
`W` — in REPLACE modes the candidate itself, in APPEND mode the typed
prefix plus the candidate's remainder, which for a literal prefix is again
exactly `W`. -/
theorem C4_prefix_roundtrip (bl : List (List Char)) (m : WordMap) (W Q : List Char)
    (settings : Settings)
    (hQ : Q ≠ []) (hpre : Q <+: W) (hbl : W ∉ bl)
    (hmin : settings.minWordTriggerLength ≤ Q.length)
    (hdia : settings.ignoreDiacriticsWhenFiltering = false)
    (hhead : Char.toLower (W.headD ' ') = W.headD ' ' ∨
      Char.toUpper (Char.toLower (W.headD ' ')) = W.headD ' ') :
    W ∈ dictGetSuggestions true (addWord bl m W) Q settings := by
  obtain ⟨tail, hW⟩ := hpre
  cases Q with
  | nil => exact absurd rfl hQ
  | cons q0 Q' =>
  subst hW
  rw [List.cons_append] at hbl
  simp only [List.cons_append, List.headD_cons] at hhead
  have hcond : ¬((!true) = true ∨ (q0 :: Q') = [] ∨
      (q0 :: Q').length < settings.minWordTriggerLength) := by
    intro h
    rcases h with h | h | h
    · simp at h
    · exact hQ h
    · exact absurd h (Nat.not_lt.mpr hmin)
  have htake1 : ((q0 :: Q') ++ tail).take 1 = [q0] := rfl
  have hbmem : ((q0 :: Q') ++ tail) ∈
      mapGet (addWord bl m ((q0 :: Q') ++ tail)) [q0] := by
    unfold addWord
    rw [if_neg (by simp [hbl])]
    rw [htake1, mapGet_mapAddToBucket]
    exact setAdd_mem _ _
  rw [dictGetSuggestions, if_neg hcond]
  rw [List.mem_insertionSort, List.mem_flatMap]
  cases hmode : settings.wordInsertionMode with
  | MATCH_CASE_REPLACE =>
    refine ⟨mapGet (addWord bl m ((q0 :: Q') ++ tail)) [q0], ?_, ?_⟩
    · simp [hmode, hdia, maybeLowerCase, htake1]
    · rw [List.mem_map]
      refine ⟨(q0 :: Q') ++ tail, ?_, ?_⟩
      · rw [List.mem_filter]
        refine ⟨hbmem, ?_⟩
        simp [hmode, hdia, maybeLowerCase, List.isPrefixOf_iff_prefix,
          List.prefix_append]
      · simp [hmode]
  | IGNORE_CASE_REPLACE =>
    refine ⟨mapGet (addWord bl m ((q0 :: Q') ++ tail)) [q0], ?_, ?_⟩
    · rcases hhead with hh | hh
      · simp [hmode, hdia, maybeLowerCase, hh]
      · simp [hmode, hdia, maybeLowerCase, hh]
    · rw [List.mem_map]
      refine ⟨(q0 :: Q') ++ tail, ?_, ?_⟩
      · rw [List.mem_filter]
        refine ⟨hbmem, ?_⟩
        simp [hmode, hdia, maybeLowerCase, List.isPrefixOf_iff_prefix]
      · simp [hmode]
  | APPEND =>
    refine ⟨mapGet (addWord bl m ((q0 :: Q') ++ tail)) [q0], ?_, ?_⟩
    · rcases hhead with hh | hh
      · simp [hmode, hdia, maybeLowerCase, hh]
      · simp [hmode, hdia, maybeLowerCase, hh]
    · rw [List.mem_map]
      refine ⟨(q0 :: Q') ++ tail, ?_, ?_⟩
      · rw [List.mem_filter]
        refine ⟨hbmem, ?_⟩
        simp [hmode, hdia, maybeLowerCase, List.isPrefixOf_iff_prefix]
      · simp [hmode, hdia, maybeLowerCase, List.length_map,
          List.drop_succ_cons, List.drop_left]

/-- C4 witness: for `"hello"` inserted into the empty scanner table and the
literal prefix `"he"`, the matcher with default settings returns a
suggestion equal to `"hello"`. -/
theorem C4_prefix_roundtrip_witness :
    helloWord ∈ dictGetSuggestions true (addWord [] [] helloWord) ['h', 'e'] baseSettings :=
  C4_prefix_roundtrip [] [] helloWord ['h', 'e'] baseSettings (by decide)
    ⟨['l', 'l', 'o'], by decide⟩ (by decide) (by decide) (by decide) (by decide)

/-- C9 witness: a one-character marker at offsets 2–3 survives an edit
replacing one character at offset 0 by four characters together with the
registration of a new one-character marker, and every resulting range spans
exactly one character. -/
theorem C9_marker_length_invariant_witness :
    (0, (5, 6)) ∈ (([⟨[⟨0, 1, 4⟩], [MarkerEffect.addMark 1 (7, 8)]⟩] : List MarkerTr).foldl
        markerFieldUpdate [(0, (2, 3))]) ∧
    ((0, (5, 6)) : Nat × (Nat × Nat)).2.2 = ((0, (5, 6)) : Nat × (Nat × Nat)).2.1 + 1 :=
  ⟨by decide,
    C9_marker_length_invariant [⟨[⟨0, 1, 4⟩], [MarkerEffect.addMark 1 (7, 8)]⟩] [(0, (2, 3))]
      (by decide)
      (by
        intro tr htr i r hr
        simp only [List.mem_singleton] at htr
        subst htr
        simp only [List.mem_singleton, MarkerEffect.addMark.injEq] at hr
        rw [hr.2])
      (0, (5, 6)) (by decide)⟩

end Completr
